import Mathlib

/-!
Verification development for the GTARadio import tooling
(`tools/import_gta3_audio.py` and `tools/serve.py`).

The Python code is shallowly embedded: directories become explicit entry
listings, the filesystem and the external transcoder become oracles passed
in as parameters, and the job registry becomes a small transition system.
Every definition is translated from the source files; spec-side selection
rules used for refinement statements are clearly marked as such.
-/

set_option maxHeartbeats 1000000

namespace GTARadio

/-- The nine fixed station codes, in canonical order
(`STATIONS` in `tools/import_gta3_audio.py`). -/
def STATIONS : List String :=
  ["HEAD", "CLASS", "KJAH", "RISE", "LIPS", "GAME", "MSX", "FLASH", "CHAT"]

/-- Recognized file extensions in the exact preference order of
`VALID_EXTENSIONS` in the source. -/
def VALID_EXTENSIONS : List String := [".mp3", ".MP3", ".wav", ".WAV"]

/-- One directory entry. `pathlib` splits a file name into `stem` and
`suffix`; we keep the two parts explicit (so `Entry.name = stem ++ ext`),
and `isFile` mirrors `Path.is_file()`. Directory entries that are not
regular files carry `isFile = false`. -/
structure Entry where
  stem : String
  ext : String
  isFile : Bool
deriving DecidableEq, Repr

/-- The entry's full file name. -/
def Entry.name (e : Entry) : String := e.stem ++ e.ext

/-- A directory as the importer sees it: its entries in iteration order
(`Path.iterdir`), and whether iterating raises `OSError` (`iterFails`).
Existence checks (`Path.exists`) consult the entries directly. -/
structure DirListing where
  entries : List Entry
  iterFails : Bool
deriving DecidableEq, Repr

/-- `(directory / n).exists()` for a name `n` inside the directory. -/
def DirListing.hasName (d : DirListing) (n : String) : Bool :=
  d.entries.any (fun e => e.name == n)

/-- ASCII lowercase for one character, the model of Python's `str.lower`
on the file names involved here. -/
def charLower (c : Char) : Char :=
  if 'A' ≤ c ∧ c ≤ 'Z' then Char.ofNat (c.toNat + 32) else c

/-- ASCII lowercase for a string (Python `str.lower`). -/
def strLower (s : String) : String := ⟨s.data.map charLower⟩

/-- A resolved source file inside the audio directory, the model of the
`pathlib.Path` that `find_src` returns. -/
structure FileRef where
  stem : String
  ext : String
deriving DecidableEq, Repr

/-- The predicate of `find_src`'s fallback scan, exactly the three tests of
its loop body: a regular file, recognized suffix case-insensitively, stem
equal to the station code case-insensitively. -/
def scanMatch (stem_upper : String) (c : Entry) : Bool :=
  c.isFile && (strLower c.ext == ".mp3" || strLower c.ext == ".wav")
    && strLower c.stem == strLower stem_upper

/-- `find_src` from `tools/import_gta3_audio.py`: first the exact-case
existence checks for `STEM ++ ext`, one extension of `VALID_EXTENSIONS` at
a time in order; then, if none hit, a scan over the directory entries in
iteration order returning the first entry satisfying `scanMatch`. The
`OSError` branch of the scan (modelled by `iterFails`) yields `none`. -/
def find_src (audio_dir : DirListing) (stem_upper : String) : Option FileRef :=
  match VALID_EXTENSIONS.find? (fun ext => audio_dir.hasName (stem_upper ++ ext)) with
  | some ext => some ⟨stem_upper, ext⟩
  | none =>
    if audio_dir.iterFails then none
    else
      match audio_dir.entries.find? (scanMatch stem_upper) with
      | some c => some ⟨c.stem, c.ext⟩
      | none => none

/-- The fixed conventional subfolder names tried by
`locate_audio_directory`, in source order. -/
def SUBFOLDER_NAMES : List String := ["audio", "Audio", "AUDIO", "AudioPC", "audiopc"]

/-- `count_station_matches`: the number of stations for which some
recognized extension yields an existing `stem ++ ext` name in the
directory (the inner loop breaks at the first extension that exists).
`none` models a path that does not exist or is not a directory, for which
the source returns 0. -/
def count_station_matches : Option DirListing → Nat
  | none => 0
  | some l =>
    (STATIONS.filter (fun stem =>
      VALID_EXTENSIONS.any (fun ext => l.hasName (stem ++ ext)))).length

/-- One scored candidate directory: its match score, its path, and its
listing (the source carries the score and the `Path`; we keep the listing
alongside so the pipeline can read the chosen directory). -/
structure Cand where
  score : Nat
  path : String
  dir : DirListing
deriving DecidableEq, Repr

/-- The directory tree handed to `locate_audio_directory`: whether the
root resolves to an existing directory, the root's own listing and path,
the listings of the named conventional subfolders (`none` when absent or
not a directory), and every descendant directory of the root in
`Path.rglob` scan order. -/
structure RootTree where
  rootExists : Bool
  rootPath : String
  root : DirListing
  named : String → Option DirListing
  rglob : List (String × DirListing)

/-- The candidate list exactly as `locate_audio_directory` builds it: the
root when it scores, then each conventional subfolder that scores, and —
only when that list is empty — every scoring directory of the recursive
scan. -/
def buildCandidates (t : RootTree) : List Cand :=
  let direct := count_station_matches (some t.root)
  let fromRoot := if direct ≠ 0 then [⟨direct, t.rootPath, t.root⟩] else ([] : List Cand)
  let fromNamed := SUBFOLDER_NAMES.filterMap (fun n =>
    match t.named n with
    | some l =>
      let m := count_station_matches (some l)
      if m ≠ 0 then some (⟨m, t.rootPath ++ "/" ++ n, l⟩ : Cand) else none
    | none => none)
  let primary := fromRoot ++ fromNamed
  if primary.isEmpty then
    t.rglob.filterMap (fun pr =>
      let m := count_station_matches (some pr.2)
      if m ≠ 0 then some (⟨m, pr.1, pr.2⟩ : Cand) else none)
  else primary

/-- Stable descending insertion: the new element passes over strictly
greater scores only, so equal scores keep their original relative order —
the behaviour of CPython's stable `list.sort(key, reverse=True)`. -/
def insertDesc (x : Cand) : List Cand → List Cand
  | [] => [x]
  | y :: ys => if y.score > x.score then y :: insertDesc x ys else x :: y :: ys

/-- Stable sort by score descending, the model of
`candidates.sort(key=lambda item: item[0], reverse=True)`. -/
def sortDesc : List Cand → List Cand
  | [] => []
  | a :: l => insertDesc a (sortDesc l)

/-- Spec-side selection rule, for refinement only: the first candidate of
maximal score in enumeration order. -/
def firstMax : List Cand → Option Cand
  | [] => none
  | x :: xs =>
    match firstMax xs with
    | none => some x
    | some y => if y.score > x.score then some y else some x

/-- The `AudioImportError` message for a root that does not resolve. -/
def DIR_NOT_FOUND_MSG : String := "Directory not found"

/-- The `AudioImportError` message when no candidate scores. -/
def NO_AUDIO_MSG : String :=
  "Unable to locate GTA III audio files under the provided directory. Select the game folder that contains the Audio assets."

/-- The `AudioImportError` message when no transcoder resolves. -/
def TOOL_NOT_FOUND_MSG : String :=
  "ffmpeg (or avconv) not found on PATH. Install ffmpeg: https://ffmpeg.org/download.html"

/-- `locate_audio_directory`: fail if the root is missing, build the
candidate list, fail if it is empty, otherwise stable-sort by score
descending and return the first candidate. -/
def locate_audio_directory (t : RootTree) : Except String Cand :=
  if !t.rootExists then .error DIR_NOT_FOUND_MSG
  else
    match sortDesc (buildCandidates t) with
    | [] => .error NO_AUDIO_MSG
    | best :: _ => .ok best

/-- `which_prog`: the first candidate name that resolves on the search
path; `which` is the oracle for `shutil.which`. -/
def which_prog (which : String → Option String) (candidates : List String) : Option String :=
  candidates.findSome? which

/-- `resolve_tool`: a resolvable preferred tool wins; otherwise
`which_prog(["ffmpeg", "ffmpeg.exe"]) or which_prog(["avconv"])`. -/
def resolve_tool (which : String → Option String) (preferred : Option String) : Option String :=
  let fallback :=
    match which_prog which ["ffmpeg", "ffmpeg.exe"] with
    | some r => some r
    | none => which_prog which ["avconv"]
  match preferred with
  | some p =>
    match which p with
    | some r => some r
    | none => fallback
  | none => fallback

/-- Outcome of the `shutil.copy2` branch for an mp3 source: plain success,
the source resolving to the destination itself (or `SameFileError`, which
the source also records as copied), or an `OSError` with its message. -/
inductive CopyOutcome
  | ok
  | sameFile
  | osError (msg : String)
deriving DecidableEq, Repr

/-- The external world's behaviour for one station: how the copy branch
would go, the transcoder's exit code (`127` models the
`FileNotFoundError` branch of `transcode_to_mp3`), its captured logs,
whether a failing invocation left a partially written destination file,
and whether the cleanup `dst.unlink()` of the failure branch raises
`OSError` (which the source swallows, leaving the partial file). -/
structure StationEnv where
  copy : CopyOutcome
  exitCode : Int
  logs : List String
  partialWrite : Bool
  unlinkFails : Bool
deriving DecidableEq, Repr

/-- The four per-station outcomes of the import loop. -/
inductive Outcome
  | missing
  | copied
  | converted
  | failed
deriving DecidableEq, Repr

/-- The status string the source stores for each outcome. -/
def Outcome.str : Outcome → String
  | .missing => "missing"
  | .copied => "copied"
  | .converted => "converted"
  | .failed => "failed"

/-- One per-station record, the model of the `record` dict built by
the import loop (`None` fields were simply never set). -/
structure ImportRecord where
  stem : String
  status : String
  source : Option FileRef
  destination : Option String
  error : Option String
  exit_code : Option Int
  logs : List String
deriving DecidableEq, Repr

/-- The run summary, the model of the `summary` dict (static metadata
fields such as `source_root` are omitted; destinations are keyed by their
station stem since every destination is `target_dir / stem ++ ".mp3"`). -/
structure Summary where
  expected : Nat
  found : Nat
  copied : Nat
  converted : Nat
  missing : List String
  failures : List String
  details : List ImportRecord
  target : String
  tool : String
  audio_dir : String
  audio_matches : Nat
deriving DecidableEq, Repr

/-- Filesystem effects on the destination directory. Destination audio
files are keyed by their station stem (the file `stem ++ ".mp3"`). -/
inductive FsEvent
  | mkdirTarget
  | write (stem : String)
  | remove (stem : String)
  | writeCache
deriving DecidableEq, Repr

/-- The import loop's body for one station: resolve the source, then
either record `missing`, or copy (suffix lowercases to `.mp3`) or
transcode, together with the destination-directory effects of that
branch. A failing branch runs `try: if dst.exists(): dst.unlink()
except OSError: pass` — a best-effort removal attempt: when the unlink
does not raise (`unlinkFails = false`) the destination file is removed
(removing an absent file is a no-op), and when it raises the exception
is swallowed and no removal happens, so a partial file persists. -/
def processStation (audio_dir : DirListing) (env : String → StationEnv)
    (stem : String) : Outcome × ImportRecord × List FsEvent :=
  match find_src audio_dir stem with
  | none => (.missing, ⟨stem, "missing", none, none, none, none, []⟩, [])
  | some src =>
    let e := env stem
    if strLower src.ext == ".mp3" then
      match e.copy with
      | .ok =>
        (.copied, ⟨stem, "copied", some src, some stem, none, none, []⟩,
          [.write stem])
      | .sameFile =>
        (.copied, ⟨stem, "copied", some src, some stem, none, none, []⟩, [])
      | .osError msg =>
        (.failed, ⟨stem, "failed", some src, some stem, some msg, none, []⟩,
          (if e.partialWrite then [FsEvent.write stem] else [])
            ++ (if e.unlinkFails then [] else [FsEvent.remove stem]))
    else
      if e.exitCode = 0 then
        (.converted, ⟨stem, "converted", some src, some stem, none, none, []⟩,
          [.write stem])
      else
        (.failed,
          ⟨stem, "failed", some src, some stem, none, some e.exitCode, e.logs⟩,
          (if e.partialWrite then [FsEvent.write stem] else [])
            ++ (if e.unlinkFails then [] else [FsEvent.remove stem]))

/-- The summary as initialised before the loop. -/
def initSummary (target tool audioDir : String) (audioMatches : Nat) : Summary :=
  { expected := STATIONS.length, found := 0, copied := 0, converted := 0,
    missing := [], failures := [], details := [], target := target,
    tool := tool, audio_dir := audioDir, audio_matches := audioMatches }

/-- One iteration of the import loop: process the station and fold its
outcome into the summary exactly as the source's branches do. -/
def stepStation (audio_dir : DirListing) (env : String → StationEnv)
    (acc : Summary × List FsEvent) (stem : String) : Summary × List FsEvent :=
  let s := acc.1
  let o := processStation audio_dir env stem
  let rcd := o.2.1
  let s' :=
    match o.1 with
    | .missing =>
      { s with missing := s.missing ++ [stem], details := s.details ++ [rcd] }
    | .copied =>
      { s with found := s.found + 1, copied := s.copied + 1,
               details := s.details ++ [rcd] }
    | .converted =>
      { s with found := s.found + 1, converted := s.converted + 1,
               details := s.details ++ [rcd] }
    | .failed =>
      { s with found := s.found + 1, failures := s.failures ++ [stem],
               details := s.details ++ [rcd] }
  (s', acc.2 ++ o.2.2)

/-- The whole world one run depends on: the directory tree, the
`shutil.which` oracle, the preferred tool, the per-station external
behaviour, and the destination path. -/
structure RunEnv where
  tree : RootTree
  which : String → Option String
  preferred : Option String
  station : String → StationEnv
  targetPath : String

/-- `import_gta3_audio`: locate the audio directory, create the target
directory, resolve the tool (failing before any station when none
resolves), then fold the import loop over `STATIONS` and finally write
the cache file. Returns the summary (or the `AudioImportError` message)
together with the destination-directory effects in order. -/
def import_gta3_audio (env : RunEnv) : Except String Summary × List FsEvent :=
  match locate_audio_directory env.tree with
  | .error e => (.error e, [])
  | .ok best =>
    let ev0 := [FsEvent.mkdirTarget]
    match resolve_tool env.which env.preferred with
    | none => (.error TOOL_NOT_FOUND_MSG, ev0)
    | some tool =>
      let start := (initSummary env.targetPath tool best.path best.score, ev0)
      let r := STATIONS.foldl (stepStation best.dir env.station) start
      (.ok r.1, r.2 ++ [FsEvent.writeCache])

/-- Applying one destination-directory event to the set of destination
files present (a duplicate-free list). -/
def applyEvent (fs : List String) : FsEvent → List String
  | .write stem => if stem ∈ fs then fs else fs ++ [stem]
  | .remove stem => fs.erase stem
  | .mkdirTarget => fs
  | .writeCache => fs

/-- The destination audio files present after a list of events, starting
from an empty destination directory. -/
def finalFs (evs : List FsEvent) : List String := evs.foldl applyEvent []

/-- Whether an event reads or writes the destination file of `stem`. -/
def FsEvent.touches (stem : String) : FsEvent → Bool
  | .write s => s == stem
  | .remove s => s == stem
  | .mkdirTarget => false
  | .writeCache => false

/-- Job lifecycle states (`serve.py`). -/
inductive JobStatus
  | pending
  | running
  | completed
  | failed
deriving DecidableEq, Repr

/-- The registry entry for one job, restricted to the fields the claims
are about (`records`, `partial_summary` and the timestamps are carried by
the same updates and do not influence `status` or `progress`). -/
structure Job where
  status : JobStatus
  progress : Nat
  total : Nat
  error : Option String
deriving DecidableEq, Repr

/-- `_create_job`: a fresh `pending` job with `progress = 0` and
`total = len(STATIONS)`. -/
def createJob : Job :=
  { status := .pending, progress := 0, total := STATIONS.length, error := none }

/-- The registry update operations of `serve.py`, each performed under
`JOB_LOCK`:
`hookStation i` is `progress_hook` on a station event carrying record
index `i` (sets `progress` to `max(i, current)`);
`hookComplete` is `progress_hook` on a complete event;
`setRunning`, `finishCompleted` and `finishFailed` are the `_update_job`
calls of `_run_import_job`. -/
inductive JobOp
  | hookStation (index : Nat)
  | hookComplete
  | setRunning
  | finishCompleted
  | finishFailed (msg : String)
deriving DecidableEq, Repr

/-- Applying one registry update to a job. -/
def applyOp (j : Job) : JobOp → Job
  | .hookStation i => { j with progress := max i j.progress }
  | .hookComplete => { j with status := .completed, progress := STATIONS.length }
  | .setRunning => { j with status := .running }
  | .finishCompleted => { j with status := .completed, progress := STATIONS.length }
  | .finishFailed m => { j with status := .failed, error := some m }

/-- Applying a sequence of registry updates in order. -/
def applyOps (ops : List JobOp) (j : Job) : Job := ops.foldl applyOp j

/-- The statuses a poller can observe along a run: the status before each
update and after the last one. -/
def statusTrace (j : Job) : List JobOp → List JobStatus
  | [] => [j.status]
  | op :: ops => j.status :: statusTrace (applyOp j op) ops

/-- The update sequences `_run_import_job` can emit for one job: first
`_update_job(status="running")`, then the station events its progress
hook would receive from the pipeline, then either (optionally a complete
event followed by) `_update_job(status="completed", ...)`, or, when
the import call raises, `_update_job(status="failed", ...)`. -/
inductive RunTrace : List JobOp → Prop
  | completes (hooks : List Nat) (withEvent : Bool) :
      RunTrace (JobOp.setRunning :: hooks.map JobOp.hookStation
        ++ (if withEvent then [JobOp.hookComplete] else [])
        ++ [JobOp.finishCompleted])
  | fails (hooks : List Nat) (msg : String) :
      RunTrace (JobOp.setRunning :: hooks.map JobOp.hookStation
        ++ [JobOp.finishFailed msg])

/-- The keyword parameters `import_gta3_audio` accepts: its signature is
`import_gta3_audio(game_root, *, target_dir=None, preferred_tool=None)`. -/
def import_gta3_audio_keywords : List String := ["target_dir", "preferred_tool"]

/-- The keyword arguments `_run_import_job` passes when it calls
`import_gta3_audio(game_root, progress_callback=progress_hook)`. -/
def run_import_job_call_keywords : List String := ["progress_callback"]

/-- Python call semantics for keyword arguments: the call raises
`TypeError` unless every keyword passed is an accepted parameter name. -/
def pythonCallAccepts (accepted passed : List String) : Bool :=
  passed.all (fun k => accepted.contains k)

/-- A concrete audio directory: exact-case `HEAD.mp3`, `HEAD.wav` and
`CLASS.wav`. -/
def exDir : DirListing :=
  ⟨[⟨"HEAD", ".mp3", true⟩, ⟨"HEAD", ".wav", true⟩, ⟨"CLASS", ".wav", true⟩], false⟩

/-- A concrete directory whose iteration order lists `head.wav` before
`head.mp3`, with no exact-case station name. -/
def c4dir : DirListing :=
  ⟨[⟨"readme", ".txt", true⟩, ⟨"head", ".wav", true⟩, ⟨"head", ".mp3", true⟩], false⟩

/-- A concrete root tree whose root directory is `exDir`. -/
def exTree : RootTree :=
  { rootExists := true
    rootPath := "/games/gta3"
    root := exDir
    named := fun _ => none
    rglob := [] }

/-- Concrete per-station behaviour: the transcoder fails with exit code 1
for `CLASS` (leaving a partial file, whose cleanup unlink succeeds),
succeeds elsewhere. -/
def exStation : String → StationEnv := fun stem =>
  if stem == "CLASS" then ⟨.ok, 1, ["encode error"], true, false⟩
  else ⟨.ok, 0, [], false, false⟩

/-- Like `exStation`, but the cleanup `dst.unlink()` for the failed
`CLASS` station raises `OSError`. -/
def exStationUnlinkFail : String → StationEnv := fun stem =>
  if stem == "CLASS" then ⟨.ok, 1, ["encode error"], true, true⟩
  else ⟨.ok, 0, [], false, false⟩

/-- A concrete run environment over `exTree` with `ffmpeg` resolvable. -/
def exEnv : RunEnv :=
  { tree := exTree
    which := fun n => if n == "ffmpeg" then some "/usr/bin/ffmpeg" else none
    preferred := none
    station := exStation
    targetPath := "/repo/web/sounds/gta/3" }

/-- The same environment with no transcoder resolvable. -/
def exEnvNoTool : RunEnv :=
  { exEnv with which := fun _ => none }

/-- The same environment as `exEnv`, except that the cleanup unlink for
the failed `CLASS` station raises `OSError`. -/
def exEnvUnlinkFail : RunEnv :=
  { exEnv with station := exStationUnlinkFail }

/-- The record produced for a station with no resolved source. -/
def missingRecord (stem : String) : ImportRecord :=
  ⟨stem, "missing", none, none, none, none, []⟩

/-- The summary the pipeline produces on `exEnv`. -/
def exSummary : Summary :=
  { expected := 9, found := 2, copied := 1, converted := 0,
    missing := ["KJAH", "RISE", "LIPS", "GAME", "MSX", "FLASH", "CHAT"],
    failures := ["CLASS"],
    details :=
      [⟨"HEAD", "copied", some ⟨"HEAD", ".mp3"⟩, some "HEAD", none, none, []⟩,
       ⟨"CLASS", "failed", some ⟨"CLASS", ".wav"⟩, some "CLASS", none, some 1,
         ["encode error"]⟩,
       missingRecord "KJAH", missingRecord "RISE", missingRecord "LIPS",
       missingRecord "GAME", missingRecord "MSX", missingRecord "FLASH",
       missingRecord "CHAT"],
    target := "/repo/web/sounds/gta/3", tool := "/usr/bin/ffmpeg",
    audio_dir := "/games/gta3", audio_matches := 2 }

-- ------------------------------------------------------------------
-- Theorems
-- ------------------------------------------------------------------

/-- The first element of a list satisfying a predicate, located by an
explicit decomposition, is what `find?` returns. -/
theorem find?_append_first {α : Type} (p : α → Bool) (pre post : List α) (e : α)
    (hpre : ∀ x ∈ pre, p x = false) (he : p e = true) :
    List.find? p (pre ++ e :: post) = some e := by
  induction pre with
  | nil => simpa using List.find?_cons_of_pos _ he
  | cons a l ih =>
    have ha : p a = false := hpre a (by simp)
    have ih' := ih (fun x hx => hpre x (by simp [hx]))
    simpa [List.find?_cons_of_neg, ha] using ih'

/-- C9: when both the exact-case names `STEM.mp3` and `STEM.wav` exist in
the chosen directory, `find_src` resolves the canonical `.mp3` file. -/
theorem find_src_prefers_canonical (d : DirListing) (s : String)
    (h1 : d.hasName (s ++ ".mp3") = true)
    (h2 : d.hasName (s ++ ".wav") = true) :
    find_src d s = some ⟨s, ".mp3"⟩ := by
  have hfind : VALID_EXTENSIONS.find? (fun ext => d.hasName (s ++ ext)) = some ".mp3" := by
    rw [VALID_EXTENSIONS]
    exact List.find?_cons_of_pos _ (by simpa using h1)
  simp [find_src, hfind]

/-- Witness for C9 at the concrete directory `exDir` and station `HEAD`. -/
theorem find_src_prefers_canonical_witness :
    exDir.hasName ("HEAD" ++ ".mp3") = true
      ∧ exDir.hasName ("HEAD" ++ ".wav") = true
      ∧ find_src exDir "HEAD" = some ⟨"HEAD", ".mp3"⟩ :=
  ⟨by decide, by decide,
    find_src_prefers_canonical exDir "HEAD" (by decide) (by decide)⟩

/-- C4 counterexample: in `c4dir` the entry `head.wav` precedes
`head.mp3` in iteration order, the exact-case checks all miss, both
entries match the case-insensitive scan — and `find_src` returns the
`.wav` entry, not the `.mp3` one the claimed extension-preference
ordering would select. -/
theorem find_src_scan_ignores_extension_preference :
    scanMatch "HEAD" ⟨"head", ".mp3", true⟩ = true
      ∧ scanMatch "HEAD" ⟨"head", ".wav", true⟩ = true
      ∧ (∀ ext ∈ VALID_EXTENSIONS, c4dir.hasName ("HEAD" ++ ext) = false)
      ∧ find_src c4dir "HEAD" = some ⟨"head", ".wav"⟩
      ∧ find_src c4dir "HEAD" ≠ some ⟨"head", ".mp3"⟩ := by
  decide

/-- C4 (amended): when the exact-case checks of step (1) find nothing and
the directory iterates cleanly, the case-insensitive scan returns the
first entry in directory iteration order that is a regular file with a
recognized extension (case-insensitively) and a case-insensitively
matching stem; extension preference plays no role in this step. -/
theorem find_src_scan_first_iteration_hit (d : DirListing) (s : String)
    (e : Entry) (pre post : List Entry)
    (hdirect : ∀ ext ∈ VALID_EXTENSIONS, d.hasName (s ++ ext) = false)
    (hiter : d.iterFails = false)
    (hsplit : d.entries = pre ++ e :: post)
    (he : scanMatch s e = true)
    (hpre : ∀ x ∈ pre, scanMatch s x = false) :
    find_src d s = some ⟨e.stem, e.ext⟩ := by
  have hnone : VALID_EXTENSIONS.find? (fun ext => d.hasName (s ++ ext)) = none := by
    rw [List.find?_eq_none]
    intro x hx
    simp [hdirect x hx]
  have hfind : d.entries.find? (scanMatch s) = some e := by
    rw [hsplit]
    exact find?_append_first _ _ _ _ hpre he
  simp [find_src, hnone, hiter, hfind]

/-- Witness for the amended C4 at the concrete directory `c4dir`. -/
theorem find_src_scan_first_iteration_hit_witness :
    find_src c4dir "HEAD" = some ⟨"head", ".wav"⟩ :=
  find_src_scan_first_iteration_hit c4dir "HEAD" ⟨"head", ".wav", true⟩
    [⟨"readme", ".txt", true⟩] [⟨"head", ".mp3", true⟩]
    (by decide) (by decide) (by decide) (by decide) (by decide)

/-- The head of a stable descending insertion, in terms of the old head. -/
theorem head?_insertDesc (x : Cand) (l : List Cand) :
    (insertDesc x l).head? =
      match l.head? with
      | none => some x
      | some y => if y.score > x.score then some y else some x := by
  cases l with
  | nil => rfl
  | cons y ys => by_cases h : y.score > x.score <;> simp [insertDesc, h]

/-- The head of the stable descending sort is the first maximum. -/
theorem head?_sortDesc (l : List Cand) : (sortDesc l).head? = firstMax l := by
  induction l with
  | nil => rfl
  | cons a l ih =>
    rw [sortDesc, head?_insertDesc, ih]
    cases hfl : firstMax l <;> simp [firstMax, hfl]

/-- `firstMax` returns `none` only on the empty list. -/
theorem firstMax_eq_none {l : List Cand} (h : firstMax l = none) : l = [] := by
  cases l with
  | nil => rfl
  | cons a l =>
    exfalso
    cases hfl : firstMax l <;> simp [firstMax, hfl] at h
    split at h <;> simp_all

/-- `firstMax` picks the first element of maximal score: everything before
it is strictly smaller, everything after it no larger. -/
theorem firstMax_spec (l : List Cand) (x : Cand) (h : firstMax l = some x) :
    ∃ pre post, l = pre ++ x :: post ∧ (∀ y ∈ pre, y.score < x.score)
      ∧ (∀ y ∈ post, y.score ≤ x.score) := by
  induction l generalizing x with
  | nil => simp [firstMax] at h
  | cons a l ih =>
    cases hfl : firstMax l with
    | none =>
      have hl : l = [] := firstMax_eq_none hfl
      subst hl
      simp [firstMax] at h
      subst h
      exact ⟨[], [], rfl, by simp, by simp⟩
    | some y =>
      simp only [firstMax, hfl] at h
      obtain ⟨pre, post, hsplit, hpre, hpost⟩ := ih y hfl
      by_cases hgt : y.score > a.score
      · rw [if_pos hgt] at h
        obtain rfl : y = x := by injection h
        refine ⟨a :: pre, post, by simp [hsplit], ?_, hpost⟩
        intro z hz
        rcases List.mem_cons.mp hz with rfl | hz
        · exact hgt
        · exact hpre z hz
      · rw [if_neg hgt] at h
        obtain rfl : a = x := by injection h
        push_neg at hgt
        refine ⟨[], l, rfl, by simp, ?_⟩
        intro z hz
        rw [hsplit] at hz
        rcases List.mem_append.mp hz with hz | hz
        · exact le_of_lt (lt_of_lt_of_le (hpre z hz) hgt)
        · rcases List.mem_cons.mp hz with rfl | hz
          · exact hgt
          · exact le_trans (hpost z hz) hgt

/-- C3: whenever `locate_audio_directory` succeeds, the returned candidate
is the first candidate, in the source's fixed enumeration order (root,
named subfolders, recursive scan), achieving the maximal match score — so
a strictly best candidate is always chosen, ties resolve to the earliest
candidate, and the returned score is the match count of the chosen
directory. -/
theorem locate_audio_directory_first_best (t : RootTree) (best : Cand)
    (h : locate_audio_directory t = .ok best) :
    ∃ pre post, buildCandidates t = pre ++ best :: post
      ∧ (∀ y ∈ pre, y.score < best.score)
      ∧ (∀ y ∈ post, y.score ≤ best.score) := by
  unfold locate_audio_directory at h
  cases hr : t.rootExists with
  | false => rw [hr] at h; simp at h
  | true =>
    rw [hr] at h
    simp only [Bool.not_true] at h
    cases hs : sortDesc (buildCandidates t) with
    | nil => rw [hs] at h; simp at h
    | cons b rest =>
      rw [hs] at h
      simp only [if_neg] at h
      have hb : b = best := by
        cases h
        rfl
      have hhead : (sortDesc (buildCandidates t)).head? = some best := by
        rw [hs, hb]
        rfl
      rw [head?_sortDesc] at hhead
      exact firstMax_spec _ _ hhead

/-- Witness for C3 at the concrete tree `exTree`, whose root matches the
two stations `HEAD` and `CLASS`. -/
theorem locate_audio_directory_first_best_witness :
    ∃ pre post,
      buildCandidates exTree = pre ++ (⟨2, "/games/gta3", exDir⟩ : Cand) :: post
        ∧ (∀ y ∈ pre, y.score < 2) ∧ (∀ y ∈ post, y.score ≤ 2) :=
  locate_audio_directory_first_best exTree ⟨2, "/games/gta3", exDir⟩ (by rfl)

/-- One loop iteration adds exactly one station to exactly one of the
copied, converted, failures or missing tallies. -/
theorem stepStation_measure (d : DirListing) (env : String → StationEnv)
    (acc : Summary × List FsEvent) (t : String) :
    (stepStation d env acc t).1.copied + (stepStation d env acc t).1.converted
      + (stepStation d env acc t).1.failures.length
      + (stepStation d env acc t).1.missing.length
      = acc.1.copied + acc.1.converted + acc.1.failures.length
        + acc.1.missing.length + 1 := by
  unfold stepStation
  cases h : (processStation d env t).1 <;> simp [h] <;> omega

/-- Folding the loop over a station list grows the four tallies by
exactly the number of stations processed. -/
theorem foldl_measure (d : DirListing) (env : String → StationEnv)
    (stems : List String) :
    ∀ acc : Summary × List FsEvent,
      (stems.foldl (stepStation d env) acc).1.copied
        + (stems.foldl (stepStation d env) acc).1.converted
        + (stems.foldl (stepStation d env) acc).1.failures.length
        + (stems.foldl (stepStation d env) acc).1.missing.length
      = acc.1.copied + acc.1.converted + acc.1.failures.length
        + acc.1.missing.length + stems.length := by
  induction stems with
  | nil => intro acc; simp
  | cons t ts ih =>
    intro acc
    rw [List.foldl_cons, ih, stepStation_measure]
    simp
    omega

/-- The loop never changes the `expected` field. -/
theorem foldl_expected (d : DirListing) (env : String → StationEnv)
    (stems : List String) :
    ∀ acc : Summary × List FsEvent,
      (stems.foldl (stepStation d env) acc).1.expected = acc.1.expected := by
  induction stems with
  | nil => intro acc; rfl
  | cons t ts ih =>
    intro acc
    rw [List.foldl_cons, ih]
    unfold stepStation
    cases h : (processStation d env t).1 <;> simp [h]

/-- A station's outcome is `missing` exactly when its source does not
resolve. -/
theorem processStation_missing_iff (d : DirListing) (env : String → StationEnv)
    (t : String) :
    (processStation d env t).1 = Outcome.missing ↔ find_src d t = none := by
  unfold processStation
  cases h : find_src d t with
  | none => simp
  | some src =>
    simp only [h]
    by_cases hm : (strLower src.ext == ".mp3") = true
    · cases hc : (env t).copy <;> simp [hm, hc]
    · rw [Bool.not_eq_true] at hm
      by_cases hz : (env t).exitCode = 0 <;> simp [hm, hz]

/-- The missing list after the loop: the accumulator's list followed by
exactly the processed stations whose source did not resolve, in order. -/
theorem foldl_missing (d : DirListing) (env : String → StationEnv)
    (stems : List String) :
    ∀ acc : Summary × List FsEvent,
      (stems.foldl (stepStation d env) acc).1.missing
        = acc.1.missing ++ stems.filter (fun t => (find_src d t).isNone) := by
  induction stems with
  | nil => intro acc; simp
  | cons t ts ih =>
    intro acc
    rw [List.foldl_cons, ih, List.filter_cons]
    by_cases hmiss : (processStation d env t).1 = Outcome.missing
    · have hn : find_src d t = none := (processStation_missing_iff d env t).mp hmiss
      have : (find_src d t).isNone = true := by rw [hn]; rfl
      rw [if_pos this]
      simp [stepStation, hmiss]
    · have hn : ¬ find_src d t = none := fun hc =>
        hmiss ((processStation_missing_iff d env t).mpr hc)
      have : ¬ (find_src d t).isNone = true := by
        cases hfs : find_src d t
        · exact absurd hfs hn
        · simp
      rw [if_neg this]
      cases h : (processStation d env t).1
      · exact absurd h hmiss
      all_goals simp [stepStation, h]

/-- The loop preserves the invariant that `found` counts exactly the
copied, converted and failed stations. -/
theorem foldl_found (d : DirListing) (env : String → StationEnv)
    (stems : List String) :
    ∀ acc : Summary × List FsEvent,
      acc.1.found = acc.1.copied + acc.1.converted + acc.1.failures.length →
      (stems.foldl (stepStation d env) acc).1.found
        = (stems.foldl (stepStation d env) acc).1.copied
          + (stems.foldl (stepStation d env) acc).1.converted
          + (stems.foldl (stepStation d env) acc).1.failures.length := by
  induction stems with
  | nil => intro acc h; simpa using h
  | cons t ts ih =>
    intro acc h
    rw [List.foldl_cons]
    apply ih
    unfold stepStation
    cases hc : (processStation d env t).1 <;> simp [hc] <;> omega

/-- The details list after the loop: one record per processed station, in
station order, each produced from that station's own resolution and
external behaviour alone. -/
theorem foldl_details (d : DirListing) (env : String → StationEnv)
    (stems : List String) :
    ∀ acc : Summary × List FsEvent,
      (stems.foldl (stepStation d env) acc).1.details
        = acc.1.details ++ stems.map (fun t => (processStation d env t).2.1) := by
  induction stems with
  | nil => intro acc; simp
  | cons t ts ih =>
    intro acc
    rw [List.foldl_cons, ih, List.map_cons]
    unfold stepStation
    cases h : (processStation d env t).1 <;> simp [h]

/-- The failures list after the loop: the accumulator's list followed by
exactly the processed stations whose outcome is `failed`, in order. -/
theorem foldl_failures (d : DirListing) (env : String → StationEnv)
    (stems : List String) :
    ∀ acc : Summary × List FsEvent,
      (stems.foldl (stepStation d env) acc).1.failures
        = acc.1.failures
          ++ stems.filter (fun t => (processStation d env t).1 == Outcome.failed) := by
  induction stems with
  | nil => intro acc; simp
  | cons t ts ih =>
    intro acc
    rw [List.foldl_cons, ih, List.filter_cons]
    cases h : (processStation d env t).1 <;> simp +decide [stepStation, h]

/-- The destination-directory events after the loop: the accumulator's
events followed by each processed station's own events, in order. -/
theorem foldl_events (d : DirListing) (env : String → StationEnv)
    (stems : List String) :
    ∀ acc : Summary × List FsEvent,
      (stems.foldl (stepStation d env) acc).2
        = acc.2 ++ stems.flatMap (fun t => (processStation d env t).2.2) := by
  induction stems with
  | nil => intro acc; simp
  | cons t ts ih =>
    intro acc
    rw [List.foldl_cons, ih, List.flatMap_cons]
    unfold stepStation
    cases h : (processStation d env t).1 <;> simp [h]

/-- C2: any summary a completed run returns satisfies
`copied + converted + len(failures) + len(missing) = expected`, with the
expected total being the nine stations. -/
theorem summary_counts_partition (env : RunEnv) (s : Summary)
    (hok : (import_gta3_audio env).1 = .ok s) :
    s.copied + s.converted + s.failures.length + s.missing.length = s.expected
      ∧ s.expected = 9 := by
  cases hloc : locate_audio_directory env.tree with
  | error e => simp [import_gta3_audio, hloc] at hok
  | ok best =>
    cases htool : resolve_tool env.which env.preferred with
    | none => simp [import_gta3_audio, hloc, htool] at hok
    | some tool =>
      simp [import_gta3_audio, hloc, htool] at hok
      subst hok
      constructor
      · rw [foldl_measure, foldl_expected]
        simp [initSummary]
      · rw [foldl_expected]
        simp [initSummary, STATIONS]

/-- Witness for C2 at the concrete environment `exEnv`. -/
theorem summary_counts_partition_witness :
    exSummary.copied + exSummary.converted + exSummary.failures.length
        + exSummary.missing.length = exSummary.expected
      ∧ exSummary.expected = 9 :=
  summary_counts_partition exEnv exSummary (by rfl)

/-- C10: in any completed run, `found` counts exactly the copied,
converted and failed stations — every resolved station lands in exactly
one of those outcomes — and the missing list is exactly the stations
whose source did not resolve, in station order. -/
theorem found_partition_and_missing_exact (env : RunEnv) (best : Cand) (s : Summary)
    (hloc : locate_audio_directory env.tree = .ok best)
    (hok : (import_gta3_audio env).1 = .ok s) :
    s.found = s.copied + s.converted + s.failures.length
      ∧ s.missing = STATIONS.filter (fun t => (find_src best.dir t).isNone) := by
  cases htool : resolve_tool env.which env.preferred with
  | none => simp [import_gta3_audio, hloc, htool] at hok
  | some tool =>
    simp [import_gta3_audio, hloc, htool] at hok
    subst hok
    constructor
    · exact foldl_found _ _ _ _ (by simp [initSummary])
    · rw [foldl_missing]
      simp [initSummary]

/-- Witness for C10 at the concrete environment `exEnv`. -/
theorem found_partition_and_missing_exact_witness :
    exSummary.found = exSummary.copied + exSummary.converted
        + exSummary.failures.length
      ∧ exSummary.missing
          = STATIONS.filter (fun t => (find_src exDir t).isNone) :=
  found_partition_and_missing_exact exEnv ⟨2, "/games/gta3", exDir⟩ exSummary
    (by rfl) (by rfl)

/-- C5: when no transcoding tool resolves, the run fails with the
`ToolNotFound` message, the only destination effect is creating the
target directory — no audio file is written and no station is touched. -/
theorem tool_not_found_aborts (env : RunEnv) (best : Cand)
    (hloc : locate_audio_directory env.tree = .ok best)
    (htool : resolve_tool env.which env.preferred = none) :
    (import_gta3_audio env).1 = .error TOOL_NOT_FOUND_MSG
      ∧ (import_gta3_audio env).2 = [FsEvent.mkdirTarget]
      ∧ ∀ stem, FsEvent.write stem ∉ (import_gta3_audio env).2 := by
  refine ⟨?_, ?_, ?_⟩ <;> simp [import_gta3_audio, hloc, htool]

/-- Witness for C5 at the concrete environment `exEnvNoTool`. -/
theorem tool_not_found_aborts_witness :
    (import_gta3_audio exEnvNoTool).1 = .error TOOL_NOT_FOUND_MSG
      ∧ (import_gta3_audio exEnvNoTool).2 = [FsEvent.mkdirTarget]
      ∧ ∀ stem, FsEvent.write stem ∉ (import_gta3_audio exEnvNoTool).2 :=
  tool_not_found_aborts exEnvNoTool ⟨2, "/games/gta3", exDir⟩ (by rfl) (by rfl)

/-- The loop body for a station that resolves to a non-mp3 source whose
transcoder invocation exits non-zero: a failed record carrying the exit
code and logs, and the destination effects of the best-effort cleanup
branch. -/
theorem processStation_transcode_fail (d : DirListing) (env : String → StationEnv)
    (t : String) (f : FileRef)
    (hsrc : find_src d t = some f)
    (hext : (strLower f.ext == ".mp3") = false)
    (hcode : (env t).exitCode ≠ 0) :
    processStation d env t
      = (Outcome.failed,
          ⟨t, "failed", some f, some t, none, some (env t).exitCode, (env t).logs⟩,
          (if (env t).partialWrite then [FsEvent.write t] else [])
            ++ (if (env t).unlinkFails then [] else [FsEvent.remove t])) := by
  simp [processStation, hsrc, hext, hcode]

/-- Every destination event a station's loop body emits concerns that
station's own destination file. -/
theorem mem_station_events (d : DirListing) (env : String → StationEnv)
    (t : String) (e : FsEvent) (he : e ∈ (processStation d env t).2.2) :
    e = FsEvent.write t ∨ e = FsEvent.remove t := by
  unfold processStation at he
  cases hfs : find_src d t with
  | none => simp [hfs] at he
  | some src =>
    simp only [hfs] at he
    by_cases hm : (strLower src.ext == ".mp3") = true
    · simp only [hm, if_true] at he
      cases hcp : (env t).copy <;> simp [hcp] at he <;>
        first
          | (exact Or.inl he)
          | (by_cases hp : (env t).partialWrite = true <;>
              by_cases hu : (env t).unlinkFails = true <;>
                simp [hp, hu] at he <;> tauto)
    · simp only [Bool.not_eq_true] at hm
      simp only [hm, Bool.false_eq_true, if_false] at he
      by_cases hz : (env t).exitCode = 0
      · simp [hz] at he
        exact Or.inl he
      · simp only [if_neg hz] at he
        by_cases hp : (env t).partialWrite = true <;>
          by_cases hu : (env t).unlinkFails = true <;>
            simp [hp, hu] at he <;> tauto

/-- A station's loop body never touches another station's destination. -/
theorem touches_station_events (d : DirListing) (env : String → StationEnv)
    (t st : String) (hne : st ≠ t) :
    ∀ e ∈ (processStation d env t).2.2, FsEvent.touches st e = false := by
  intro e he
  rcases mem_station_events d env t e he with rfl | rfl <;>
    · simp only [FsEvent.touches]
      exact beq_eq_false_iff_ne.mpr (Ne.symm hne)

/-- Events that never touch a destination file leave its presence
unchanged. -/
theorem mem_foldl_applyEvent_untouched (st : String) (evs : List FsEvent) :
    ∀ fs : List String, (∀ e ∈ evs, FsEvent.touches st e = false) →
      (st ∈ evs.foldl applyEvent fs ↔ st ∈ fs) := by
  induction evs with
  | nil => intro fs _; exact Iff.rfl
  | cons e evs ih =>
    intro fs h
    rw [List.foldl_cons, ih _ (fun x hx => h x (List.mem_cons_of_mem _ hx))]
    have he : FsEvent.touches st e = false := h e (List.mem_cons_self _ _)
    cases e with
    | write s =>
      have hne : st ≠ s := Ne.symm (by simpa [FsEvent.touches] using he)
      by_cases hs : s ∈ fs <;> simp [applyEvent, hs, hne]
    | remove s =>
      have hne : st ≠ s := Ne.symm (by simpa [FsEvent.touches] using he)
      simp [applyEvent, List.mem_erase_of_ne hne]
    | mkdirTarget => simp [applyEvent]
    | writeCache => simp [applyEvent]

/-- The destination-file list stays duplicate-free under any events. -/
theorem nodup_foldl_applyEvent (evs : List FsEvent) :
    ∀ fs : List String, fs.Nodup → (evs.foldl applyEvent fs).Nodup := by
  induction evs with
  | nil => intro fs h; exact h
  | cons e evs ih =>
    intro fs h
    rw [List.foldl_cons]
    apply ih
    cases e with
    | write s =>
      by_cases hs : s ∈ fs <;> simp [applyEvent, hs]
      · exact h
      · simp [List.nodup_append, h, hs]
    | remove s => simpa [applyEvent] using h.erase s
    | mkdirTarget => simpa [applyEvent] using h
    | writeCache => simpa [applyEvent] using h

/-- A destination file whose own events end in a removal, surrounded only
by events that never touch it, is absent at the end of the run. -/
theorem stem_absent_after_cleanup (stem : String)
    (evs1 W evs3 : List FsEvent)
    (h3 : ∀ e ∈ evs3, FsEvent.touches stem e = false) :
    stem ∉ List.foldl applyEvent []
      (evs1 ++ (W ++ [FsEvent.remove stem]) ++ evs3) := by
  intro hc
  rw [List.foldl_append, List.foldl_append, List.foldl_append,
    mem_foldl_applyEvent_untouched stem evs3 _ h3] at hc
  simp only [List.foldl_cons, List.foldl_nil, applyEvent] at hc
  have hnd : (List.foldl applyEvent (List.foldl applyEvent [] evs1) W).Nodup :=
    nodup_foldl_applyEvent _ _ (nodup_foldl_applyEvent _ _ List.nodup_nil)
  exact hnd.not_mem_erase hc

/-- The nine station codes are pairwise distinct. -/
theorem STATIONS_nodup : STATIONS.Nodup := by decide

/-- C6 (amended): a station whose source resolves to a non-mp3 file and
whose transcoder exits non-zero is recorded as failed with that exit
code, appears in the failures list, every other station still gets its
own record (one record per station, in order, each depending only on its
own resolution and external behaviour), and the run still returns a
summary — the per-station failure is never raised to the caller. The
cleanup of the destination file is best-effort: whenever the attempted
`dst.unlink()` does not raise, no destination file for the failed
station remains at the end of the run (when the unlink raises `OSError`,
the source swallows it and a partial file may persist). -/
theorem transcode_failure_isolated (env : RunEnv) (best : Cand) (tool : String)
    (stem : String) (f : FileRef)
    (hloc : locate_audio_directory env.tree = .ok best)
    (htool : resolve_tool env.which env.preferred = some tool)
    (hmem : stem ∈ STATIONS)
    (hsrc : find_src best.dir stem = some f)
    (hext : (strLower f.ext == ".mp3") = false)
    (hcode : (env.station stem).exitCode ≠ 0) :
    ∃ s, (import_gta3_audio env).1 = .ok s
      ∧ stem ∈ s.failures
      ∧ s.details
          = STATIONS.map (fun t => (processStation best.dir env.station t).2.1)
      ∧ (⟨stem, "failed", some f, some stem, none,
            some (env.station stem).exitCode, (env.station stem).logs⟩
          : ImportRecord) ∈ s.details
      ∧ ((env.station stem).unlinkFails = false →
          stem ∉ finalFs (import_gta3_audio env).2) := by
  have hproc := processStation_transcode_fail best.dir env.station stem f hsrc hext hcode
  refine ⟨(STATIONS.foldl (stepStation best.dir env.station)
      (initSummary env.targetPath tool best.path best.score,
        [FsEvent.mkdirTarget])).1, ?_, ?_, ?_, ?_, ?_⟩
  · simp [import_gta3_audio, hloc, htool]
  · rw [foldl_failures]
    refine List.mem_append.mpr (Or.inr ?_)
    refine List.mem_filter.mpr ⟨hmem, ?_⟩
    rw [hproc]
    rfl
  · rw [foldl_details]
    simp [initSummary]
  · rw [foldl_details]
    refine List.mem_append.mpr (Or.inr ?_)
    refine List.mem_map.mpr ⟨stem, hmem, ?_⟩
    rw [hproc]
  · intro hunlink
    obtain ⟨pre, post, hsplit⟩ := List.append_of_mem hmem
    have hnd : (pre ++ stem :: post).Nodup := by
      rw [← hsplit]; exact STATIONS_nodup
    rw [List.nodup_append] at hnd
    have hpost : stem ∉ post := (List.nodup_cons.mp hnd.2.1).1
    have hpre : stem ∉ pre := fun hc => hnd.2.2 hc (List.mem_cons_self _ _)
    have hev : (import_gta3_audio env).2
        = ([FsEvent.mkdirTarget]
            ++ pre.flatMap (fun t => (processStation best.dir env.station t).2.2))
          ++ (((if (env.station stem).partialWrite then [FsEvent.write stem] else [])
              ++ [FsEvent.remove stem]))
          ++ (post.flatMap (fun t => (processStation best.dir env.station t).2.2)
            ++ [FsEvent.writeCache]) := by
      simp only [import_gta3_audio, hloc, htool]
      rw [foldl_events, hsplit]
      simp only [List.flatMap_append, List.flatMap_cons, hproc, hunlink]
      simp [List.append_assoc]
    rw [hev]
    unfold finalFs
    apply stem_absent_after_cleanup
    intro e he
    rcases List.mem_append.mp he with he | he
    · rw [List.mem_flatMap] at he
      obtain ⟨t, ht, he⟩ := he
      exact touches_station_events best.dir env.station t stem
        (fun hc => hpost (hc ▸ ht)) e he
    · simp at he
      subst he
      rfl

/-- Witness for the amended C6 at the concrete environment `exEnv`, whose
`CLASS` station resolves to `CLASS.wav` and fails with exit code 1. -/
theorem transcode_failure_isolated_witness :
    ∃ s, (import_gta3_audio exEnv).1 = .ok s
      ∧ "CLASS" ∈ s.failures
      ∧ s.details
          = STATIONS.map (fun t => (processStation exDir exStation t).2.1)
      ∧ (⟨"CLASS", "failed", some ⟨"CLASS", ".wav"⟩, some "CLASS", none,
            some (exStation "CLASS").exitCode, (exStation "CLASS").logs⟩
          : ImportRecord) ∈ s.details
      ∧ ((exStation "CLASS").unlinkFails = false →
          "CLASS" ∉ finalFs (import_gta3_audio exEnv).2) :=
  transcode_failure_isolated exEnv ⟨2, "/games/gta3", exDir⟩ "/usr/bin/ffmpeg"
    "CLASS" ⟨"CLASS", ".wav"⟩ (by rfl) (by rfl) (by decide) (by rfl) (by decide)
    (by decide)

/-- C6 counterexample: the removal of a partially written destination
file is only attempted. In `exEnvUnlinkFail` the `CLASS` station
resolves to `CLASS.wav`, the transcoder exits non-zero leaving a partial
destination file, and the cleanup `dst.unlink()` raises `OSError` — the
source swallows the exception, so the partial `CLASS` file is still
present at the end of the run, contradicting the claim that the pipeline
removes any partially written destination file. -/
theorem transcode_failure_unlink_not_removed :
    find_src exDir "CLASS" = some ⟨"CLASS", ".wav"⟩
      ∧ (exStationUnlinkFail "CLASS").exitCode ≠ 0
      ∧ (exStationUnlinkFail "CLASS").partialWrite = true
      ∧ (∃ s, (import_gta3_audio exEnvUnlinkFail).1 = .ok s
          ∧ "CLASS" ∈ s.failures)
      ∧ "CLASS" ∈ finalFs (import_gta3_audio exEnvUnlinkFail).2 := by
  exact ⟨by decide, by decide, by decide, ⟨exSummary, by rfl, by decide⟩, by decide⟩

/-- Registry updates whose station indices stay within the station count
never decrease `progress`, and keep it within the station count. -/
theorem applyOps_progress_mono (ops : List JobOp)
    (hops : ∀ i, JobOp.hookStation i ∈ ops → i ≤ STATIONS.length) :
    ∀ j : Job, j.progress ≤ STATIONS.length →
      j.progress ≤ (applyOps ops j).progress
        ∧ (applyOps ops j).progress ≤ STATIONS.length := by
  induction ops with
  | nil => intro j h; exact ⟨le_refl _, h⟩
  | cons op ops ih =>
    intro j h
    have hops' : ∀ i, JobOp.hookStation i ∈ ops → i ≤ STATIONS.length :=
      fun i hi => hops i (List.mem_cons_of_mem _ hi)
    have hstep : applyOps (op :: ops) j = applyOps ops (applyOp j op) := by
      simp [applyOps]
    rw [hstep]
    cases op with
    | hookStation i =>
      have hi : i ≤ STATIONS.length := hops i (List.mem_cons_self _ _)
      have h' : (applyOp j (.hookStation i)).progress ≤ STATIONS.length := by
        simp only [applyOp]
        omega
      obtain ⟨a, b⟩ := ih hops' _ h'
      exact ⟨le_trans (by simp only [applyOp]; omega) a, b⟩
    | hookComplete =>
      obtain ⟨a, b⟩ := ih hops' (applyOp j .hookComplete) (by simp [applyOp])
      exact ⟨le_trans h a, b⟩
    | setRunning =>
      obtain ⟨a, b⟩ := ih hops' (applyOp j .setRunning) (by simpa [applyOp] using h)
      exact ⟨a, b⟩
    | finishCompleted =>
      obtain ⟨a, b⟩ := ih hops' (applyOp j .finishCompleted) (by simp [applyOp])
      exact ⟨le_trans h a, b⟩
    | finishFailed m =>
      obtain ⟨a, b⟩ := ih hops' (applyOp j (.finishFailed m)) (by simpa [applyOp] using h)
      exact ⟨a, b⟩

/-- C7: starting from a fresh job, across any sequence of registry
updates built from per-station progress-hook updates (with station
indices within the nine stations) and finalization updates, `progress`
is monotonically non-decreasing: the value observed after `ops1` is never
larger than the value observed after `ops1` followed by `ops2`. -/
theorem job_progress_monotone (ops1 ops2 : List JobOp)
    (hops : ∀ i, JobOp.hookStation i ∈ ops1 ++ ops2 → i ≤ STATIONS.length) :
    (applyOps ops1 createJob).progress
      ≤ (applyOps (ops1 ++ ops2) createJob).progress := by
  have h1 : ∀ i, JobOp.hookStation i ∈ ops1 → i ≤ STATIONS.length :=
    fun i hi => hops i (List.mem_append.mpr (Or.inl hi))
  have h2 : ∀ i, JobOp.hookStation i ∈ ops2 → i ≤ STATIONS.length :=
    fun i hi => hops i (List.mem_append.mpr (Or.inr hi))
  have hstart : createJob.progress ≤ STATIONS.length := by simp [createJob]
  obtain ⟨_, hb⟩ := applyOps_progress_mono ops1 h1 createJob hstart
  have hsplit : applyOps (ops1 ++ ops2) createJob
      = applyOps ops2 (applyOps ops1 createJob) := by
    simp [applyOps, List.foldl_append]
  rw [hsplit]
  exact (applyOps_progress_mono ops2 h2 _ hb).1

/-- Witness for C7 on a concrete update sequence: a running job that saw
station 1, then station 3 and finalization. -/
theorem job_progress_monotone_witness :
    (applyOps [JobOp.setRunning, JobOp.hookStation 1] createJob).progress
      ≤ (applyOps ([JobOp.setRunning, JobOp.hookStation 1]
          ++ [JobOp.hookStation 3, JobOp.finishCompleted]) createJob).progress :=
  job_progress_monotone [JobOp.setRunning, JobOp.hookStation 1]
    [JobOp.hookStation 3, JobOp.finishCompleted]
    (by
      intro i hi
      simp [STATIONS] at hi ⊢
      omega)

/-- Station progress-hook updates never change the status. -/
theorem applyOps_hookStations_status (hooks : List Nat) :
    ∀ j : Job, (applyOps (hooks.map JobOp.hookStation) j).status = j.status := by
  induction hooks with
  | nil => intro j; rfl
  | cons i hooks ih =>
    intro j
    have : applyOps ((i :: hooks).map JobOp.hookStation) j
        = applyOps (hooks.map JobOp.hookStation) (applyOp j (.hookStation i)) := by
      simp [applyOps]
    rw [this, ih]
    rfl

/-- The statuses observed across a block of station progress-hook
updates: the current status, repeated. -/
theorem statusTrace_hooks (hooks : List Nat) :
    ∀ (j : Job) (rest : List JobOp),
      statusTrace j (hooks.map JobOp.hookStation ++ rest)
        = List.replicate hooks.length j.status
          ++ statusTrace (applyOps (hooks.map JobOp.hookStation) j) rest := by
  induction hooks with
  | nil => intro j rest; simp [applyOps]
  | cons i hooks ih =>
    intro j rest
    simp only [List.map_cons, List.cons_append, statusTrace, List.length_cons,
      List.replicate_succ, List.append_eq]
    rw [ih (applyOp j (.hookStation i)) rest]
    have hst : (applyOp j (.hookStation i)).status = j.status := rfl
    have hop : applyOps (JobOp.hookStation i :: hooks.map JobOp.hookStation) j
        = applyOps (hooks.map JobOp.hookStation) (applyOp j (.hookStation i)) := by
      simp [applyOps]
    rw [hop, hst]

/-- A repeated status followed by one more of the same status commutes to
a leading occurrence. -/
theorem replicate_append_self {α : Type} (a : α) (n : Nat) (l : List α) :
    List.replicate n a ++ a :: l = a :: (List.replicate n a ++ l) := by
  induction n with
  | zero => rfl
  | succ n ih => simp [List.replicate_succ, ih]

/-- Applying the running update yields `running` regardless of the job's
prior state. -/
theorem applyOp_setRunning_status (j : Job) :
    (applyOp j .setRunning).status = JobStatus.running := rfl

/-- Applying a completion update yields `completed` regardless of the
job's prior state. -/
theorem applyOp_hookComplete_status (j : Job) :
    (applyOp j .hookComplete).status = JobStatus.completed := rfl

/-- Applying the final completion update yields `completed`. -/
theorem applyOp_finishCompleted_status (j : Job) :
    (applyOp j .finishCompleted).status = JobStatus.completed := rfl

/-- Applying the final failure update yields `failed`. -/
theorem applyOp_finishFailed_status (j : Job) (m : String) :
    (applyOp j (.finishFailed m)).status = JobStatus.failed := rfl

/-- C8: along every update sequence `_run_import_job` can emit for a job,
the observable status sequence is `pending`, then a nonempty block of
`running`, then a nonempty block of one final status — `completed` or
`failed` — so the status moves only forward and no status is re-entered
after being left. -/
theorem job_status_forward_only (ops : List JobOp) (h : RunTrace ops) :
    ∃ a b fin, statusTrace createJob ops
        = JobStatus.pending
            :: (List.replicate a JobStatus.running ++ List.replicate b fin)
      ∧ 1 ≤ a ∧ 1 ≤ b
      ∧ (fin = JobStatus.completed ∨ fin = JobStatus.failed) := by
  have hpend : createJob.status = JobStatus.pending := rfl
  cases h with
  | completes hooks withEvent =>
    refine ⟨hooks.length + 1, if withEvent then 2 else 1, .completed, ?_,
      by omega, by cases withEvent <;> simp, Or.inl rfl⟩
    show statusTrace createJob (JobOp.setRunning :: _) = _
    rw [statusTrace]
    simp only [List.append_eq, List.append_assoc]
    rw [statusTrace_hooks]
    have hrun2 : (applyOps (hooks.map JobOp.hookStation)
        (applyOp createJob JobOp.setRunning)).status = JobStatus.running :=
      applyOps_hookStations_status hooks _
    cases withEvent <;>
      simp [statusTrace, hpend, hrun2, applyOp_setRunning_status,
        applyOp_hookComplete_status, applyOp_finishCompleted_status,
        List.replicate_succ, replicate_append_self]
  | fails hooks msg =>
    refine ⟨hooks.length + 1, 1, .failed, ?_, by omega, by omega, Or.inr rfl⟩
    show statusTrace createJob (JobOp.setRunning :: _) = _
    rw [statusTrace]
    simp only [List.append_eq, List.append_assoc]
    rw [statusTrace_hooks]
    have hrun2 : (applyOps (hooks.map JobOp.hookStation)
        (applyOp createJob JobOp.setRunning)).status = JobStatus.running :=
      applyOps_hookStations_status hooks _
    simp [statusTrace, hpend, hrun2, applyOp_setRunning_status,
      applyOp_finishFailed_status, List.replicate_succ,
      replicate_append_self]

/-- Witness for C8 on the update sequence every current asynchronous job
actually emits: `running`, then `failed`. -/
theorem job_status_forward_only_witness :
    ∃ a b fin,
      statusTrace createJob
          [JobOp.setRunning, JobOp.finishFailed "Unexpected failure"]
        = JobStatus.pending
            :: (List.replicate a JobStatus.running ++ List.replicate b fin)
        ∧ 1 ≤ a ∧ 1 ≤ b
        ∧ (fin = JobStatus.completed ∨ fin = JobStatus.failed) :=
  job_status_forward_only _ (RunTrace.fails [] "Unexpected failure")

/-- C1: the pipeline exposes no progress-notification channel at all —
`import_gta3_audio` accepts only the keywords `target_dir` and
`preferred_tool`, while the orchestrator's asynchronous path calls it
with `progress_callback=progress_hook`; under Python call semantics that
call is rejected (it raises `TypeError`), so no station notification is
ever delivered to the injected observer. -/
theorem progress_callback_not_accepted :
    pythonCallAccepts import_gta3_audio_keywords run_import_job_call_keywords = false
      ∧ "progress_callback" ∉ import_gta3_audio_keywords
      ∧ "progress_callback" ∈ run_import_job_call_keywords := by
  decide

end GTARadio
